import Mathlib

/-!
A shallow embedding, in Lean 4, of the `static` package of influxdb: an HTTP
handler layer that serves single-page-application assets (and a swagger
document) from either an embedded bundle or a directory on disk.

The embedding models:
  * Go `time.Time` values as a record of calendar/clock fields (`GoTime`);
  * `fs.File` / `fs.FileInfo` as records carrying the observable data
    (seekability, stat result, content bytes as a `String`);
  * an `fs.FS` (`AssetSource`) as a function from a path to either a file or
    an open error (the error carries its message and whether `os.IsNotExist`
    holds for it);
  * HTTP responses as a record of status, body, headers, and the
    modification time handed to `http.ServeContent` (which that primitive
    emits as the `Last-Modified` header);
  * `path.Clean`, `strings.TrimPrefix(_, "/")`, `filepath.Join` (slash
    separator), and `fmt.Sprintf("%d", _)` as executable Lean functions over
    character lists.

Requests are modelled as a bare URL path: the handlers under study never read
conditional headers themselves (they delegate to `http.ServeContent`), and we
model the unconditional GET path of `ServeContent`: status 200, full body,
`Last-Modified` from the supplied time.
-/

/-- A Go `time.Time`, reduced to the calendar and clock fields the `static`
package observes (`Day`, `Clock`, `IsZero`). `year`/`month` are carried so
that distinct instants with equal day/clock fields are representable. -/
structure GoTime where
  year : Nat
  month : Nat
  day : Nat
  hour : Nat
  minute : Nat
  sec : Nat
deriving DecidableEq, Repr

/-- Go `time.Time.IsZero`: the zero instant is January 1, year 1, 00:00:00. -/
def GoTime.isZero (t : GoTime) : Bool :=
  t = ⟨1, 1, 1, 0, 0, 0⟩

/-- Go `fs.FileInfo`: the fields read by `staticFileHandler`
(`Name`, `Size`, `ModTime`) plus `IsDir` for completeness. -/
structure FileInfo where
  name : String
  size : Int
  modTime : GoTime
  isDir : Bool
deriving DecidableEq, Repr

/-- A Go `fs.File` as the handlers observe it: whether the concrete handle
implements `io.ReadSeeker` (embedded regular files and `os.File` do; the
embedded directory handle `openDir` does not), the result of `Stat`, and the
byte content that `http.ServeContent` would stream. -/
structure FsFile where
  seekable : Bool
  stat : Except String FileInfo
  content : String
deriving Repr

/-- A Go `error` returned from `fs.FS.Open`, reduced to what the callers
observe: `Error()` (the message) and `os.IsNotExist`. -/
structure OpenErr where
  msg : String
  isNotExist : Bool
deriving DecidableEq, Repr

/-- An `fs.FS`: opening a path yields a file or an error. -/
def AssetSource : Type := String → Except OpenErr FsFile

/-- An HTTP request as seen by these handlers: `r.URL.Path`. -/
structure Request where
  urlPath : String
deriving DecidableEq, Repr

/-- An HTTP response: status code, body, headers, and the modification time
handed to `http.ServeContent` (emitted by it as `Last-Modified`). -/
structure Response where
  status : Nat
  body : String
  headers : List (String × String)
  lastModified : Option GoTime
deriving DecidableEq, Repr

/-! ### Decimal rendering: `fmt.Sprintf("%d", _)` -/

/-- One decimal digit as a character. -/
def digitChar (d : Nat) : Char :=
  match d with
  | 0 => '0' | 1 => '1' | 2 => '2' | 3 => '3' | 4 => '4'
  | 5 => '5' | 6 => '6' | 7 => '7' | 8 => '8' | 9 => '9'
  | _ => '?'

/-- Digit-accumulation loop of decimal rendering, with explicit fuel so the
recursion is structural (mirrors the fuel in Lean core's `Nat.toDigitsCore`;
`natDecimal` always supplies enough fuel). -/
def natDecimalCore : Nat → Nat → List Char → List Char
  | 0, _, acc => acc
  | _ + 1, 0, acc => acc
  | fuel + 1, n, acc =>
    natDecimalCore fuel (n / 10) (digitChar (n % 10) :: acc)

/-- Decimal rendering of a natural number, as Go's `fmt` verb `%d` prints a
nonnegative integer. -/
def natDecimal (n : Nat) : List Char :=
  if n = 0 then ['0'] else natDecimalCore (n + 1) n []

/-- Decimal rendering of an integer, as Go's `%d` prints an `int64`. -/
def intDecimal (i : Int) : List Char :=
  if i < 0 then '-' :: natDecimal (-i).toNat else natDecimal i.toNat

/-! ### Path manipulation: `path.Clean`, `strings.TrimPrefix`,
`filepath.Join` (on a slash-separated OS, `filepath.Join` and `path.Join`
agree for the inputs that occur here) -/

/-- Go `strings.Split(s, "/")` on character lists: the accumulator holds the
current segment reversed. -/
def splitSegsAux : List Char → List Char → List (List Char)
  | cur, [] => [cur.reverse]
  | cur, c :: cs =>
    if c = '/' then cur.reverse :: splitSegsAux [] cs
    else splitSegsAux (c :: cur) cs

/-- Go `strings.Split(s, "/")`. -/
def splitSegs (s : String) : List String :=
  (splitSegsAux [] s.data).map (fun l => ⟨l⟩)

/-- Join segments with `'/'` separators (inverse of splitting). -/
def joinSegs : List (List Char) → List Char
  | [] => []
  | [s] => s
  | s :: rest => s ++ '/' :: joinSegs rest

/-- The element-processing loop of `path.Clean`: empty and `"."` elements are
dropped; `".."` pops the last kept element when possible, is dropped at the
root of a rooted path, and is kept at the start of a relative path. The
accumulator `acc` holds the kept elements in reverse order. -/
def cleanCore (rooted : Bool) : List (List Char) → List (List Char) → List (List Char)
  | acc, [] => acc
  | acc, s :: rest =>
    if s = [] ∨ s = ['.'] then cleanCore rooted acc rest
    else if s = ['.', '.'] then
      match acc with
      | t :: acc' =>
        if t = ['.', '.'] then cleanCore rooted (['.', '.'] :: t :: acc') rest
        else cleanCore rooted acc' rest
      | [] =>
        if rooted then cleanCore rooted [] rest
        else cleanCore rooted [['.', '.']] rest
    else cleanCore rooted (s :: acc) rest

/-- Go `path.Clean`: collapse repeated separators, eliminate `.` elements,
eliminate `..` together with the preceding element, drop `..` at the root of
a rooted path; the empty result becomes `"."` (or `"/"` when rooted). -/
def pathClean (p : String) : String :=
  match p.data with
  | [] => "."
  | c :: _ =>
    let rooted := c = '/'
    let segs := (cleanCore rooted [] (splitSegsAux [] p.data)).reverse
    let out := joinSegs segs
    if rooted then ⟨'/' :: out⟩
    else if out = [] then "." else ⟨out⟩

/-- Go `strings.TrimPrefix(s, "/")`: drop one leading slash if present. -/
def trimLeadingSlash (s : String) : String :=
  match s.data with
  | [] => s
  | c :: rest => if c = '/' then ⟨rest⟩ else s

/-- Whether a path begins with the separator (Go: `path[0] == '/'`). -/
def isRooted (s : String) : Bool :=
  match s.data with
  | [] => false
  | c :: _ => c = '/'

/-- Go `filepath.Join(a, b)` on a slash-separated OS: drop empty elements,
join the rest with `"/"`, and `Clean` the result; all-empty input yields
`""`. -/
def filepathJoin (a b : String) : String :=
  if a = "" then
    if b = "" then "" else pathClean b
  else if b = "" then pathClean a
  else pathClean ⟨a.data ++ '/' :: b.data⟩

/-! ### RFC 3339 parsing: the `time.Parse(time.RFC3339, _)` call.

Modelled for the canonical UTC form `YYYY-MM-DDTHH:MM:SSZ` produced by the
build tooling (offset and fractional-second forms are out of scope of the
claims, which only distinguish a successful parse from a failed one). -/

/-- The numeric value of a decimal digit character, if it is one. -/
def digitVal (c : Char) : Option Nat :=
  if '0' ≤ c ∧ c ≤ '9' then some (c.toNat - '0'.toNat) else none

/-- Parse two decimal digits. -/
def twoDigits (a b : Char) : Option Nat :=
  match digitVal a, digitVal b with
  | some x, some y => some (10 * x + y)
  | _, _ => none

/-- Go `time.Parse(time.RFC3339, s)` for the canonical `YYYY-MM-DDTHH:MM:SSZ`
layout, with the field-range validation Go performs; any other shape fails. -/
def parseRFC3339 (s : String) : Option GoTime :=
  match s.data with
  | [y1, y2, y3, y4, '-', mo1, mo2, '-', d1, d2, 'T',
     h1, h2, ':', mi1, mi2, ':', s1, s2, 'Z'] =>
    match twoDigits y1 y2, twoDigits y3 y4, twoDigits mo1 mo2, twoDigits d1 d2,
          twoDigits h1 h2, twoDigits mi1 mi2, twoDigits s1 s2 with
    | some yh, some yl, some mo, some d, some h, some mi, some ss =>
      if 1 ≤ mo ∧ mo ≤ 12 ∧ 1 ≤ d ∧ d ≤ 31 ∧ h ≤ 23 ∧ mi ≤ 59 ∧ ss ≤ 59 then
        some ⟨100 * yh + yl, mo, d, h, mi, ss⟩
      else none
    | _, _, _, _, _, _, _ => none
  | _ => none

/-! ### The `static` package -/

/-- Constant `defaultFile`: the default UI asset served when no other static asset
matches (the SPA shell). -/
def defaultFile : String := "index.html"

/-- Constant `embedBaseDir`: name of the embedded directory in the `embed.FS`. -/
def embedBaseDir : String := "data"

/-- Constant `uiBaseDir`: directory inside `embedBaseDir` holding built UI assets. -/
def uiBaseDir : String := "build"

/-- Constant `swaggerFile`: name of the swagger JSON. -/
def swaggerFile : String := "swagger.json"

/-- Function `etag`: `fmt.Sprintf("\"%d%d%d%d%d\"", s, mt.Day(), hour, minute, second)`
where `hour, minute, second = mt.Clock()`. -/
def etag (s : Int) (mt : GoTime) : String :=
  ⟨'"' :: (intDecimal s ++ natDecimal mt.day ++ natDecimal mt.hour ++
    natDecimal mt.minute ++ natDecimal mt.sec ++ ['"'])⟩

/-- Function `modTimeFromInfo`: the info's `ModTime`, except that a zero modification
time (embedded assets) is replaced by parsing the build timestamp
`platform.GetBuildInfo().Date` (passed here as `buildDate`); a parse failure
is returned as an error. -/
def modTimeFromInfo (i : FileInfo) (buildDate : String) : Except String GoTime :=
  if i.modTime.isZero then
    match parseRFC3339 buildDate with
    | some t => .ok t
    | none => .error ("parsing time " ++ buildDate ++ " as RFC3339: cannot parse")
  else .ok i.modTime

/-- Go `http.Error(w, msg, code)`: plain-text error response; the body is the
message followed by a newline. -/
def httpError (msg : String) (code : Nat) : Response :=
  { status := code
    body := msg ++ "\n"
    headers := [("Content-Type", "text/plain; charset=utf-8"),
                ("X-Content-Type-Options", "nosniff")]
    lastModified := none }

/-- Go `http.ServeContent(w, r, name, modTime, content)` on an unconditional GET
without `Range`: status 200, the full content as body, and `Last-Modified`
from `modTime` (recorded here as the `lastModified` field; content-type
inference from `name` is elided). -/
def serveContent (_name : String) (modTime : GoTime) (content : String) : Response :=
  { status := 200, body := content, headers := [], lastModified := some modTime }

/-- Function `staticFileHandler`: requires the file to be an `io.ReadSeeker` (500
otherwise), stats it (500 on failure), resolves the modification time (500 on
failure), sets the `ETag` header, and delegates to `http.ServeContent`. -/
def staticFileHandler (f : FsFile) (buildDate : String) (_r : Request) : Response :=
  if f.seekable = false then
    httpError "could not open file for reading" 500
  else
    match f.stat with
    | .error e => httpError e 500
    | .ok i =>
      match modTimeFromInfo i buildDate with
      | .error e => httpError e 500
      | .ok modTime =>
        let resp := serveContent i.name modTime f.content
        { resp with headers := ("ETag", etag i.size modTime) :: resp.headers }

/-- Function `openAsset`: open `filepath.Join(dir, name)`; if that fails with
`os.IsNotExist`, retry with `filepath.Join(dir, defaultFile)`; return any
remaining error. -/
def openAsset (fileOpener : AssetSource) (dir name : String) : Except OpenErr FsFile :=
  match fileOpener (filepathJoin dir name) with
  | .ok f => .ok f
  | .error e =>
    if e.isNotExist then
      match fileOpener (filepathJoin dir defaultFile) with
      | .ok f => .ok f
      | .error e2 => .error e2
    else .error e

/-- The name computation at the top of `assetHandler`:
`strings.TrimPrefix(path.Clean(r.URL.Path), "/")`, with the empty result
(a root request) replaced by `defaultFile`. -/
def assetName (urlPath : String) : String :=
  let name := trimLeadingSlash (pathClean urlPath)
  if name = "" then defaultFile else name

/-- Function `assetHandler`: resolve the request path to a name, open it via
`openAsset` (404 with the error text on failure), and serve the file via
`staticFileHandler`. -/
def assetHandler (fileOpener : AssetSource) (dir : String) (buildDate : String)
    (r : Request) : Response :=
  match openAsset fileOpener dir (assetName r.urlPath) with
  | .error e => httpError e.msg 404
  | .ok f => staticFileHandler f buildDate r

/-- Function `mwSetCacheControl`: adds `Cache-Control: public, max-age=3600` to the
response of the wrapped handler. -/
def mwSetCacheControl (next : Request → Response) (r : Request) : Response :=
  let resp := next r
  { resp with headers := ("Cache-Control", "public, max-age=3600") :: resp.headers }

/-- Function `NewAssetHandler`: serve from `os.DirFS(assetsPath)` with an empty dir
when `assetsPath` is nonempty, else from the embedded FS under
`filepath.Join(embedBaseDir, uiBaseDir)`; wrapped in `mwSetCacheControl`.
The host filesystem is modelled as the function `dirFS` from a root
directory to the `AssetSource` `os.DirFS` builds for it; the embedded
bundle is the `AssetSource` `data`. -/
def NewAssetHandler (dirFS : String → AssetSource) (data : AssetSource)
    (buildDate : String) (assetsPath : String) : Request → Response :=
  let a : Request → Response :=
    if assetsPath ≠ "" then
      fun r => assetHandler (dirFS assetsPath) "" buildDate r
    else
      fun r => assetHandler data (filepathJoin embedBaseDir uiBaseDir) buildDate r
  mwSetCacheControl a

/-- Function `NewSwaggerHandler`: open `filepath.Join(embedBaseDir, swaggerFile)`
directly on the embedded FS (404 with the error text on failure — no
fallback), then serve via `staticFileHandler`; wrapped in
`mwSetCacheControl`. -/
def NewSwaggerHandler (data : AssetSource) (buildDate : String) : Request → Response :=
  mwSetCacheControl (fun r =>
    match data (filepathJoin embedBaseDir swaggerFile) with
    | .error e => httpError e.msg 404
    | .ok f => staticFileHandler f buildDate r)

/-! ### Concrete asset sources used to instantiate the theorems -/

/-- Metadata of a sample disk-backed asset (`app.js`). -/
def sampleInfo : FileInfo := ⟨"app.js", 4, ⟨2024, 5, 6, 7, 8, 9⟩, false⟩

/-- A sample disk-backed asset file. -/
def sampleFile : FsFile := ⟨true, .ok sampleInfo, "let x=1"⟩

/-- Metadata of a sample disk-backed default document. -/
def sampleIndexInfo : FileInfo := ⟨"index.html", 5, ⟨2024, 5, 6, 7, 8, 9⟩, false⟩

/-- A sample disk-backed default document. -/
def sampleIndex : FsFile := ⟨true, .ok sampleIndexInfo, "SHELL"⟩

/-- A disk-backed source holding `app.js` and `index.html`. -/
def sampleSrc : AssetSource := fun n =>
  if n = "app.js" then .ok sampleFile
  else if n = "index.html" then .ok sampleIndex
  else .error ⟨"open " ++ n ++ ": file does not exist", true⟩

/-- A source with no files at all (a binary built without assets). -/
def emptySrc : AssetSource := fun n =>
  .error ⟨"open " ++ n ++ ": file does not exist", true⟩

/-- A source where `app.js` fails with a permission error (not a
not-exists error) while the default document is present. -/
def permSrc : AssetSource := fun n =>
  if n = "app.js" then .error ⟨"open app.js: permission denied", false⟩
  else .ok sampleIndex

/-- Metadata of an embedded default document: zero modification time. -/
def embIndexInfo : FileInfo := ⟨"index.html", 5, ⟨1, 1, 1, 0, 0, 0⟩, false⟩

/-- An embedded default document (regular embedded files are seekable). -/
def embIndex : FsFile := ⟨true, .ok embIndexInfo, "SHELL"⟩

/-- The handle `embed.FS` returns for a directory: `Open` succeeds, `Stat`
succeeds, but `openDir` is not an `io.ReadSeeker`. -/
def embDirHandle : FsFile := ⟨false, .ok ⟨"fonts", 0, ⟨1, 1, 1, 0, 0, 0⟩, true⟩, ""⟩

/-- An embedded bundle whose build tree holds the directory `fonts` and the
default document. -/
def embWithDir : AssetSource := fun n =>
  if n = "data/build/fonts" then .ok embDirHandle
  else if n = "data/build/index.html" then .ok embIndex
  else .error ⟨"open " ++ n ++ ": file does not exist", true⟩

/-- The invariant `path.Clean` guarantees for every kept path element: it
is nonempty, not `"."`, contains no separator, and — for a rooted path —
is not `".."`. -/
def GoodSeg (rooted : Bool) (x : List Char) : Prop :=
  x ≠ [] ∧ x ≠ ['.'] ∧ '/' ∉ x ∧ (rooted = true → x ≠ ['.', '.'])

/-! ### Claim C1 -/

/-- C1: a request to the asset endpoint whose normalized path names a file
that exists in the configured asset source (a regular file: its handle is an
`io.ReadSeeker`, it stats, and its modification time resolves — as for every
regular file of a correctly built binary) is answered with status 200 and
the file's exact bytes as body. -/
theorem existing_file_served_with_its_bytes (src : AssetSource)
    (dir buildDate p : String) (f : FsFile) (i : FileInfo) (t : GoTime)
    (hopen : src (filepathJoin dir (assetName p)) = .ok f)
    (hseek : f.seekable = true)
    (hstat : f.stat = .ok i)
    (hmt : modTimeFromInfo i buildDate = .ok t) :
    (assetHandler src dir buildDate ⟨p⟩).status = 200 ∧
    (assetHandler src dir buildDate ⟨p⟩).body = f.content := by
  unfold assetHandler openAsset
  simp only [hopen, staticFileHandler, hseek, hstat, hmt, serveContent]
  simp

/-- Witness for C1 at a concrete source, path, and build date. -/
theorem existing_file_served_with_its_bytes_witness :
    (assetHandler sampleSrc "" "2024-01-02T03:04:05Z" ⟨"/app.js"⟩).status = 200 ∧
    (assetHandler sampleSrc "" "2024-01-02T03:04:05Z" ⟨"/app.js"⟩).body = sampleFile.content :=
  existing_file_served_with_its_bytes sampleSrc "" "2024-01-02T03:04:05Z" "/app.js"
    sampleFile sampleInfo ⟨2024, 5, 6, 7, 8, 9⟩ rfl rfl rfl rfl

/-! ### Claim C2 -/

/-- C2: when the normalized path does not exist in the asset source
(the open fails with a not-exists error); then (first conjunct) if the
default document exists (as a regular file whose modification time
resolves), the response is 200 with the default document's bytes, and
(second conjunct) if the default document also fails to open, the response
is 404. -/
theorem missing_path_serves_default_or_404 :
    (∀ (src : AssetSource) (dir buildDate p : String) (e : OpenErr)
      (fdef : FsFile) (i : FileInfo) (t : GoTime),
      src (filepathJoin dir (assetName p)) = .error e → e.isNotExist = true →
      src (filepathJoin dir defaultFile) = .ok fdef → fdef.seekable = true →
      fdef.stat = .ok i → modTimeFromInfo i buildDate = .ok t →
      (assetHandler src dir buildDate ⟨p⟩).status = 200 ∧
      (assetHandler src dir buildDate ⟨p⟩).body = fdef.content) ∧
    (∀ (src : AssetSource) (dir buildDate p : String) (e e2 : OpenErr),
      src (filepathJoin dir (assetName p)) = .error e → e.isNotExist = true →
      src (filepathJoin dir defaultFile) = .error e2 →
      (assetHandler src dir buildDate ⟨p⟩).status = 404) := by
  constructor
  · intro src dir buildDate p e fdef i t hopen hne hdef hseek hstat hmt
    unfold assetHandler openAsset
    simp only [hopen, hne, hdef, staticFileHandler, serveContent]
    simp [hseek, hstat, hmt]
  · intro src dir buildDate p e e2 hopen hne hdef
    unfold assetHandler openAsset
    simp only [hopen, hne, hdef]
    simp [httpError]

/-- Witness for C2: an unknown route on a source holding the default
document serves the shell; the same route on an empty source yields 404. -/
theorem missing_path_serves_default_or_404_witness :
    ((assetHandler sampleSrc "" "2024-01-02T03:04:05Z" ⟨"/some/client/route"⟩).status = 200 ∧
     (assetHandler sampleSrc "" "2024-01-02T03:04:05Z" ⟨"/some/client/route"⟩).body = sampleIndex.content) ∧
    (assetHandler emptySrc "" "2024-01-02T03:04:05Z" ⟨"/some/client/route"⟩).status = 404 :=
  ⟨missing_path_serves_default_or_404.1 sampleSrc "" "2024-01-02T03:04:05Z" "/some/client/route"
      ⟨"open some/client/route: file does not exist", true⟩ sampleIndex sampleIndexInfo
      ⟨2024, 5, 6, 7, 8, 9⟩ rfl rfl rfl rfl rfl rfl,
   missing_path_serves_default_or_404.2 emptySrc "" "2024-01-02T03:04:05Z" "/some/client/route"
      ⟨"open some/client/route: file does not exist", true⟩
      ⟨"open index.html: file does not exist", true⟩ rfl rfl rfl⟩

/-! ### Claim C4 -/

/-- C4: the `ETag` computation is deterministic — two requests observing
files of the same size and the same effective modification time get an
identical `ETag` header, across requests, files, and build dates. -/
theorem etag_header_deterministic (f1 f2 : FsFile) (bd1 bd2 : String)
    (r1 r2 : Request) (i1 i2 : FileInfo) (t : GoTime)
    (h1seek : f1.seekable = true) (h1stat : f1.stat = .ok i1)
    (h1mt : modTimeFromInfo i1 bd1 = .ok t)
    (h2seek : f2.seekable = true) (h2stat : f2.stat = .ok i2)
    (h2mt : modTimeFromInfo i2 bd2 = .ok t)
    (hsz : i1.size = i2.size) :
    (staticFileHandler f1 bd1 r1).headers.lookup "ETag" =
    (staticFileHandler f2 bd2 r2).headers.lookup "ETag" := by
  unfold staticFileHandler
  simp only [h1seek, h1stat, h1mt, h2seek, h2stat, h2mt, serveContent, hsz]
  simp

/-- Witness for C4 at two distinct requests observing the same file. -/
theorem etag_header_deterministic_witness :
    (staticFileHandler sampleFile "2024-01-02T03:04:05Z" ⟨"/app.js"⟩).headers.lookup "ETag" =
    (staticFileHandler sampleFile "2025-06-07T08:09:10Z" ⟨"/other"⟩).headers.lookup "ETag" :=
  etag_header_deterministic sampleFile sampleFile "2024-01-02T03:04:05Z" "2025-06-07T08:09:10Z"
    ⟨"/app.js"⟩ ⟨"/other"⟩ sampleInfo sampleInfo ⟨2024, 5, 6, 7, 8, 9⟩
    rfl rfl rfl rfl rfl rfl rfl

/-! ### Claim C5 -/

/-- C5: every response of the asset endpoint and of the schema endpoint —
whatever the source, build date, configured path, and request, hence on 200
and error paths alike — carries `Cache-Control: public, max-age=3600`,
added by `mwSetCacheControl` around both handlers. -/
theorem every_response_has_cache_control :
    ∀ (dirFS : String → AssetSource) (data : AssetSource)
      (buildDate assetsPath : String) (r : Request),
      ("Cache-Control", "public, max-age=3600") ∈
        (NewAssetHandler dirFS data buildDate assetsPath r).headers ∧
      ("Cache-Control", "public, max-age=3600") ∈
        (NewSwaggerHandler data buildDate r).headers := by
  intro dirFS data buildDate assetsPath r
  constructor
  · unfold NewAssetHandler mwSetCacheControl
    split <;> simp
  · unfold NewSwaggerHandler mwSetCacheControl
    simp

/-! ### Claim C6 -/

/-- C6: the schema endpoint never applies the SPA fallback — when the
swagger document is absent from the embedded source, the response is
exactly 404 with the open error's message as body (`http.Error` appends a
trailing newline), never 200 with substituted content. -/
theorem swagger_absent_is_404 (data : AssetSource) (buildDate : String)
    (r : Request) (e : OpenErr)
    (h : data (filepathJoin embedBaseDir swaggerFile) = .error e) :
    (NewSwaggerHandler data buildDate r).status = 404 ∧
    (NewSwaggerHandler data buildDate r).body = e.msg ++ "\n" := by
  unfold NewSwaggerHandler mwSetCacheControl
  simp only [h]
  simp [httpError]

/-- Witness for C6 on a bundle with no swagger document. -/
theorem swagger_absent_is_404_witness :
    (NewSwaggerHandler emptySrc "2024-01-02T03:04:05Z" ⟨"/api/v2/swagger.json"⟩).status = 404 ∧
    (NewSwaggerHandler emptySrc "2024-01-02T03:04:05Z" ⟨"/api/v2/swagger.json"⟩).body =
      "open data/swagger.json: file does not exist" ++ "\n" :=
  swagger_absent_is_404 emptySrc "2024-01-02T03:04:05Z" ⟨"/api/v2/swagger.json"⟩
    ⟨"open data/swagger.json: file does not exist", true⟩ rfl

/-! ### Claim C7 -/

/-- C7: for a served file whose metadata reports the zero modification time
(an embedded asset), the effective modification time of the response — the
time handed to `http.ServeContent`, which emits it as `Last-Modified` — is
the build timestamp parsed from the build-metadata string as RFC 3339
(first conjunct); if that string fails to parse, the request is answered
with a 500 response instead of crashing (second conjunct). -/
theorem zero_modtime_uses_build_timestamp :
    (∀ (f : FsFile) (bd : String) (r : Request) (i : FileInfo) (t : GoTime),
      f.seekable = true → f.stat = .ok i → i.modTime.isZero = true →
      parseRFC3339 bd = some t →
      (staticFileHandler f bd r).lastModified = some t ∧
      ("ETag", etag i.size t) ∈ (staticFileHandler f bd r).headers) ∧
    (∀ (f : FsFile) (bd : String) (r : Request) (i : FileInfo),
      f.seekable = true → f.stat = .ok i → i.modTime.isZero = true →
      parseRFC3339 bd = none →
      (staticFileHandler f bd r).status = 500) := by
  constructor
  · intro f bd r i t hseek hstat hzero hparse
    unfold staticFileHandler modTimeFromInfo
    simp only [hseek, hstat, hzero, hparse, serveContent]
    simp
  · intro f bd r i hseek hstat hzero hparse
    unfold staticFileHandler modTimeFromInfo
    simp only [hseek, hstat, hzero, hparse]
    simp [httpError]

/-- Witness for C7: an embedded file under a well-formed and under a
malformed build timestamp. -/
theorem zero_modtime_uses_build_timestamp_witness :
    ((staticFileHandler embIndex "2024-01-02T03:04:05Z" ⟨"/"⟩).lastModified =
        some ⟨2024, 1, 2, 3, 4, 5⟩ ∧
      ("ETag", etag embIndexInfo.size ⟨2024, 1, 2, 3, 4, 5⟩) ∈
        (staticFileHandler embIndex "2024-01-02T03:04:05Z" ⟨"/"⟩).headers) ∧
    (staticFileHandler embIndex "not-a-date" ⟨"/"⟩).status = 500 :=
  ⟨zero_modtime_uses_build_timestamp.1 embIndex "2024-01-02T03:04:05Z" ⟨"/"⟩
      embIndexInfo ⟨2024, 1, 2, 3, 4, 5⟩ rfl rfl rfl rfl,
   zero_modtime_uses_build_timestamp.2 embIndex "not-a-date" ⟨"/"⟩
      embIndexInfo rfl rfl rfl rfl⟩

/-! ### Claim C10 -/

/-- C10: any failure of `openAsset` is reported by the asset endpoint as a
404 with the raw error text as body. In particular, when the first open
fails with an error that is not a not-exists error (e.g. a permission
error), the fallback is not attempted — the source is quantified over, so
the response is the same whatever the source would return for the default
document — and the error is still a 404, never a 500. -/
theorem non_notexist_open_error_is_404 (src : AssetSource)
    (dir buildDate p : String) (e : OpenErr)
    (h : src (filepathJoin dir (assetName p)) = .error e)
    (hne : e.isNotExist = false) :
    assetHandler src dir buildDate ⟨p⟩ = httpError e.msg 404 := by
  unfold assetHandler openAsset
  simp only [h, hne]
  simp

/-- Witness for C10: a permission error on a source whose default document
exists is still answered 404 with the raw error text, not 500 and not the
fallback. -/
theorem non_notexist_open_error_is_404_witness :
    assetHandler permSrc "" "2024-01-02T03:04:05Z" ⟨"/app.js"⟩ =
      httpError "open app.js: permission denied" 404 :=
  non_notexist_open_error_is_404 permSrc "" "2024-01-02T03:04:05Z" "/app.js"
    ⟨"open app.js: permission denied", false⟩ rfl rfl

/-! ### Claim C3: the ETag is NOT injective in (size, modification time).

`etag` renders only size, day-of-month, hour, minute, and second — the
year and month of the modification time are dropped, so two instants one
year apart produce identical tags. What does hold: at a fixed modification
time, changing the size always changes the tag (proved below via the
injectivity of decimal rendering). -/

/-- The map `digitChar` is injective on digit values. -/
theorem digitChar_inj_lt (a b : Nat) (ha : a < 10) (hb : b < 10)
    (h : digitChar a = digitChar b) : a = b := by
  have key : ∀ x : Fin 10, ∀ y : Fin 10, digitChar x.1 = digitChar y.1 → x.1 = y.1 := by
    decide
  exact key ⟨a, ha⟩ ⟨b, hb⟩ h

/-- With sufficient fuel, `natDecimalCore` produces exactly the base-10
digits of `n` (most significant first), in front of the accumulator. -/
theorem natDecimalCore_eq_digits (n : Nat) :
    ∀ (fuel : Nat) (acc : List Char), n < fuel →
      natDecimalCore fuel n acc =
        ((Nat.digits 10 n).map digitChar).reverse ++ acc := by
  induction n using Nat.strong_induction_on with
  | _ n ih =>
    intro fuel acc hlt
    cases fuel with
    | zero => omega
    | succ f =>
      cases n with
      | zero => simp [natDecimalCore]
      | succ m =>
        have hlt' : (m + 1) / 10 < m + 1 := Nat.div_lt_self (Nat.succ_pos m) (by norm_num)
        have hfuel : (m + 1) / 10 < f := lt_of_lt_of_le hlt' (Nat.lt_succ_iff.mp hlt)
        simp only [natDecimalCore]
        rw [ih ((m + 1) / 10) hlt' f _ hfuel,
          Nat.digits_def' (b := 10) (by norm_num) (Nat.succ_pos m)]
        simp

/-- The rendering `natDecimal` of a positive number is its digit string. -/
theorem natDecimal_eq_digits (n : Nat) (hn : n ≠ 0) :
    natDecimal n = ((Nat.digits 10 n).map digitChar).reverse := by
  unfold natDecimal
  rw [if_neg hn, natDecimalCore_eq_digits n (n + 1) [] (Nat.lt_succ_self n)]
  simp

/-- Mapping `digitChar` over lists of digit values is injective. -/
theorem map_digitChar_inj : ∀ (l1 l2 : List Nat),
    (∀ d ∈ l1, d < 10) → (∀ d ∈ l2, d < 10) →
    l1.map digitChar = l2.map digitChar → l1 = l2
  | [], [], _, _, _ => rfl
  | [], _ :: _, _, _, h => by simp at h
  | _ :: _, [], _, _, h => by simp at h
  | a :: l1, b :: l2, h1, h2, h => by
    simp only [List.map_cons, List.cons.injEq] at h
    have hab : a = b :=
      digitChar_inj_lt a b (h1 a (List.mem_cons_self a l1))
        (h2 b (List.mem_cons_self b l2)) h.1
    have hl : l1 = l2 :=
      map_digitChar_inj l1 l2 (fun d hd => h1 d (List.mem_cons_of_mem _ hd))
        (fun d hd => h2 d (List.mem_cons_of_mem _ hd)) h.2
    rw [hab, hl]

/-- Decimal rendering of naturals is injective. -/
theorem natDecimal_injective (m n : Nat) (h : natDecimal m = natDecimal n) :
    m = n := by
  by_cases hm : m = 0 <;> by_cases hn : n = 0
  · rw [hm, hn]
  · exfalso
    rw [hm, natDecimal_eq_digits n hn] at h
    have hmap : (Nat.digits 10 n).map digitChar = ['0'] := by
      have := congrArg List.reverse h
      simpa [natDecimal] using this.symm
    cases hd : Nat.digits 10 n with
    | nil => rw [hd] at hmap; simp at hmap
    | cons d ds =>
      rw [hd] at hmap
      simp only [List.map_cons, List.cons.injEq, List.map_eq_nil_iff] at hmap
      have hd10 : d < 10 :=
        Nat.digits_lt_base (by norm_num) (hd ▸ List.mem_cons_self d ds)
      have hd0 : d = 0 := digitChar_inj_lt d 0 hd10 (by norm_num) hmap.1
      have : n = 0 := by
        have := Nat.ofDigits_digits 10 n
        rw [hd, hmap.2, hd0] at this
        simpa [Nat.ofDigits] using this.symm
      exact hn this
  · exfalso
    rw [hn, natDecimal_eq_digits m hm] at h
    have hmap : (Nat.digits 10 m).map digitChar = ['0'] := by
      have := congrArg List.reverse h
      simpa [natDecimal] using this
    cases hd : Nat.digits 10 m with
    | nil => rw [hd] at hmap; simp at hmap
    | cons d ds =>
      rw [hd] at hmap
      simp only [List.map_cons, List.cons.injEq, List.map_eq_nil_iff] at hmap
      have hd10 : d < 10 :=
        Nat.digits_lt_base (by norm_num) (hd ▸ List.mem_cons_self d ds)
      have hd0 : d = 0 := digitChar_inj_lt d 0 hd10 (by norm_num) hmap.1
      have : m = 0 := by
        have := Nat.ofDigits_digits 10 m
        rw [hd, hmap.2, hd0] at this
        simpa [Nat.ofDigits] using this.symm
      exact hm this
  · rw [natDecimal_eq_digits m hm, natDecimal_eq_digits n hn] at h
    have hmap := List.reverse_injective h
    have hdig := map_digitChar_inj (Nat.digits 10 m) (Nat.digits 10 n)
      (fun d hd => Nat.digits_lt_base (by norm_num) hd)
      (fun d hd => Nat.digits_lt_base (by norm_num) hd) hmap
    have h1 := Nat.ofDigits_digits 10 m
    have h2 := Nat.ofDigits_digits 10 n
    rw [← h1, ← h2, hdig]

/-- Decimal rendering of nonnegative integers is injective. -/
theorem intDecimal_inj_nonneg (s1 s2 : Int) (h1 : 0 ≤ s1) (h2 : 0 ≤ s2)
    (h : intDecimal s1 = intDecimal s2) : s1 = s2 := by
  unfold intDecimal at h
  rw [if_neg (not_lt.mpr h1), if_neg (not_lt.mpr h2)] at h
  have := natDecimal_injective _ _ h
  omega

/-- Counterexample to C3 as stated: the claim "for all (s1, t1) and
(s2, t2) with s1 ≠ s2 or t1 ≠ t2, etag(s1, t1) ≠ etag(s2, t2)" is false —
the tag renders neither year nor month, so moving the modification time of
a 10-byte file from 2020-01-05 10:20:30 to 2021-01-05 10:20:30 leaves the
tag unchanged. -/
theorem etag_injectivity_counterexample :
    ¬ (∀ (s1 s2 : Int) (t1 t2 : GoTime),
        (s1 ≠ s2 ∨ t1 ≠ t2) → etag s1 t1 ≠ etag s2 t2) := by
  intro h
  exact h 10 10 ⟨2020, 1, 5, 10, 20, 30⟩ ⟨2021, 1, 5, 10, 20, 30⟩
    (Or.inr (by decide)) (by decide)

/-- C3 amended: at a fixed modification time, changing the file's size
(sizes are nonnegative) always changes the computed ETag; a change of the
modification time only changes the tag when it changes the rendered
day-of-month, hour, minute, or second fields (the year and month are not
rendered, see the counterexample). -/
theorem etag_changes_with_size (s1 s2 : Int) (t : GoTime)
    (h1 : 0 ≤ s1) (h2 : 0 ≤ s2) (hne : s1 ≠ s2) :
    etag s1 t ≠ etag s2 t := by
  intro h
  apply hne
  apply intDecimal_inj_nonneg s1 s2 h1 h2
  unfold etag at h
  rw [String.ext_iff] at h
  simp only [List.cons.injEq, List.append_assoc, true_and] at h
  exact List.append_cancel_right h

/-- Witness for the amended C3 at concrete sizes and time. -/
theorem etag_changes_with_size_witness :
    etag 4 ⟨2024, 5, 6, 7, 8, 9⟩ ≠ etag 7 ⟨2024, 5, 6, 7, 8, 9⟩ :=
  etag_changes_with_size 4 7 ⟨2024, 5, 6, 7, 8, 9⟩ (by decide) (by decide) (by decide)

/-! ### Claim C8: a directory request does NOT fall through to the fallback.

`fs.FS.Open` succeeds on a directory (both `embed.FS` and `os.DirFS` return
a directory handle, not an error), so `openAsset` returns it without ever
attempting the default document. The request is then served by
`staticFileHandler`; the embedded directory handle (`embed`'s `openDir`)
implements no `Seek`, so the `io.ReadSeeker` assertion fails and the
response is a 500, not the default document's bytes. -/

/-- Counterexample to C8 as stated: on a bundle holding the directory
`fonts` and a default document, the truly missing path `/missing` serves
the default document's bytes with status 200, but the directory path
`/fonts` does not behave identically — it is answered 500 (the directory
handle is not an `io.ReadSeeker`), and its body is not the default
document's bytes. -/
theorem directory_request_not_like_missing_counterexample :
    (assetHandler embWithDir (filepathJoin embedBaseDir uiBaseDir)
        "2024-01-02T03:04:05Z" ⟨"/missing"⟩).status = 200 ∧
    (assetHandler embWithDir (filepathJoin embedBaseDir uiBaseDir)
        "2024-01-02T03:04:05Z" ⟨"/missing"⟩).body = embIndex.content ∧
    (assetHandler embWithDir (filepathJoin embedBaseDir uiBaseDir)
        "2024-01-02T03:04:05Z" ⟨"/fonts"⟩).status = 500 ∧
    (assetHandler embWithDir (filepathJoin embedBaseDir uiBaseDir)
        "2024-01-02T03:04:05Z" ⟨"/fonts"⟩).body ≠ embIndex.content := by
  refine ⟨by decide, by decide, by decide, by decide⟩

/-- C8 amended: requesting a path that names a directory is not treated as
a missing file — the open succeeds, so the default-document fallback is
never attempted; the response is produced by `staticFileHandler` on the
directory handle, which for the embedded source (whose directory handles
are not `io.ReadSeeker`s) is a 500 with body "could not open file for
reading", not the default document. Only a truly missing path (a
not-exists open error) falls through to the fallback. -/
theorem directory_request_served_500 (src : AssetSource)
    (dir buildDate p : String) (f : FsFile)
    (hopen : src (filepathJoin dir (assetName p)) = .ok f)
    (hdir : f.seekable = false) :
    assetHandler src dir buildDate ⟨p⟩ =
      httpError "could not open file for reading" 500 := by
  unfold assetHandler openAsset staticFileHandler
  simp only [hopen, hdir]
  simp

/-- Witness for the amended C8 at the concrete bundle and path. -/
theorem directory_request_served_500_witness :
    assetHandler embWithDir (filepathJoin embedBaseDir uiBaseDir)
        "2024-01-02T03:04:05Z" ⟨"/fonts"⟩ =
      httpError "could not open file for reading" 500 :=
  directory_request_served_500 embWithDir (filepathJoin embedBaseDir uiBaseDir)
    "2024-01-02T03:04:05Z" "/fonts" embDirHandle rfl rfl

/-! ### Claim C9: normalization neutralizes directory traversal.

For a rooted request path (HTTP request paths parsed by the server are
rooted), the name computed by `assetHandler` — `path.Clean` of the URL path
with the leading separator stripped — is a relative path with no `".."`
(and no empty) segment. Resolving such a name against the configured root
or embedded base directory cannot reach outside the asset tree. -/

/-- Segments produced by splitting contain no separator. -/
theorem splitSegsAux_no_slash (cs : List Char) :
    ∀ cur : List Char, '/' ∉ cur → ∀ x ∈ splitSegsAux cur cs, '/' ∉ x := by
  induction cs with
  | nil =>
    intro cur hcur x hx
    simp only [splitSegsAux, List.mem_singleton] at hx
    subst hx
    simpa using hcur
  | cons c cs ih =>
    intro cur hcur x hx
    simp only [splitSegsAux] at hx
    by_cases hc : c = '/'
    · rw [if_pos hc] at hx
      rcases List.mem_cons.mp hx with h | h
      · subst h; simpa using hcur
      · exact ih [] (by simp) x h
    · rw [if_neg hc] at hx
      refine ih (c :: cur) ?_ x hx
      intro hmem
      rcases List.mem_cons.mp hmem with h | h
      · exact hc h.symm
      · exact hcur h

/-- Splitting a separator-free string yields a single segment. -/
theorem splitSegsAux_no_sep (l : List Char) :
    ∀ cur : List Char, '/' ∉ l → splitSegsAux cur l = [cur.reverse ++ l] := by
  induction l with
  | nil => intro cur _; simp [splitSegsAux]
  | cons c cs ih =>
    intro cur h
    have hc : ¬ c = '/' := fun hh => h (List.mem_cons.mpr (Or.inl hh.symm))
    simp only [splitSegsAux, if_neg hc]
    rw [ih (c :: cur) (fun hh => h (List.mem_cons_of_mem c hh))]
    simp

/-- Splitting past a separator-free block up to a separator. -/
theorem splitSegsAux_append (s : List Char) :
    ∀ t cur : List Char, '/' ∉ s →
      splitSegsAux cur (s ++ '/' :: t) = (cur.reverse ++ s) :: splitSegsAux [] t := by
  induction s with
  | nil => intro t cur _; simp [splitSegsAux]
  | cons c cs ih =>
    intro t cur h
    have hc : ¬ c = '/' := fun hh => h (List.mem_cons.mpr (Or.inl hh.symm))
    simp only [List.cons_append, splitSegsAux, if_neg hc, List.append_eq]
    rw [ih t (c :: cur) (fun hh => h (List.mem_cons_of_mem c hh))]
    simp

/-- Splitting is a left inverse of joining for nonempty lists of
separator-free segments. -/
theorem splitSegsAux_joinSegs : ∀ segs : List (List Char), segs ≠ [] →
    (∀ x ∈ segs, '/' ∉ x) → splitSegsAux [] (joinSegs segs) = segs
  | [], h, _ => absurd rfl h
  | [s], _, hs => by
    simp only [joinSegs]
    rw [splitSegsAux_no_sep s [] (hs s (List.mem_singleton.mpr rfl))]
    simp
  | s :: s2 :: rest, _, hs => by
    simp only [joinSegs]
    rw [splitSegsAux_append s (joinSegs (s2 :: rest)) []
      (hs s (List.mem_cons_self s _))]
    rw [splitSegsAux_joinSegs (s2 :: rest) (by simp)
      (fun x hx => hs x (List.mem_cons_of_mem s hx))]
    simp

/-- Joining a nonempty segment list starts with the first segment. -/
theorem joinSegs_cons (s : List Char) (rest : List (List Char)) :
    ∃ tail, joinSegs (s :: rest) = s ++ tail := by
  cases rest with
  | nil => exact ⟨[], by simp [joinSegs]⟩
  | cons b l => exact ⟨'/' :: joinSegs (b :: l), by simp [joinSegs]⟩

/-- Every element kept by `cleanCore` satisfies the `path.Clean`
invariant. -/
theorem cleanCore_good (rooted : Bool) (segs : List (List Char)) :
    ∀ acc, (∀ x ∈ acc, GoodSeg rooted x) → (∀ x ∈ segs, '/' ∉ x) →
      ∀ x ∈ cleanCore rooted acc segs, GoodSeg rooted x := by
  induction segs with
  | nil =>
    intro acc hacc _ x hx
    exact hacc x (by simpa [cleanCore] using hx)
  | cons s rest ih =>
    intro acc hacc hsegs x hx
    have hs : '/' ∉ s := hsegs s (List.mem_cons_self s rest)
    have hrest : ∀ y ∈ rest, '/' ∉ y := fun y hy => hsegs y (List.mem_cons_of_mem s hy)
    simp only [cleanCore] at hx
    by_cases h1 : s = [] ∨ s = ['.']
    · rw [if_pos h1] at hx
      exact ih acc hacc hrest x hx
    · rw [if_neg h1] at hx
      by_cases h2 : s = ['.', '.']
      · rw [if_pos h2] at hx
        cases acc with
        | nil =>
          have hx' : x ∈ (if rooted = true then cleanCore rooted [] rest
              else cleanCore rooted [['.', '.']] rest) := hx
          by_cases hr : rooted = true
          · rw [if_pos hr] at hx'
            exact ih [] (by simp) hrest x hx'
          · rw [if_neg hr] at hx'
            refine ih [['.', '.']] ?_ hrest x hx'
            intro y hy
            rcases List.mem_cons.mp hy with h | h
            · subst h
              exact ⟨by simp, by simp, by simp, fun hroot => absurd hroot hr⟩
            · simp at h
        | cons t acc' =>
          have hx' : x ∈ (if t = ['.', '.'] then cleanCore rooted (['.', '.'] :: t :: acc') rest
              else cleanCore rooted acc' rest) := hx
          by_cases ht : t = ['.', '.']
          · rw [if_pos ht] at hx'
            refine ih (['.', '.'] :: t :: acc') ?_ hrest x hx'
            intro y hy
            rcases List.mem_cons.mp hy with h | h
            · subst h
              refine ⟨by simp, by simp, by simp, fun hroot => ?_⟩
              exact absurd ht ((hacc t (List.mem_cons_self t acc')).2.2.2 hroot)
            · exact hacc y h
          · rw [if_neg ht] at hx'
            exact ih acc' (fun y hy => hacc y (List.mem_cons_of_mem t hy)) hrest x hx'
      · rw [if_neg h2] at hx
        refine ih (s :: acc) ?_ hrest x hx
        intro y hy
        rcases List.mem_cons.mp hy with h | h
        · subst h
          exact ⟨fun hh => h1 (Or.inl hh), fun hh => h1 (Or.inr hh), hs, fun _ => h2⟩
        · exact hacc y h

/-- A name built from `path.Clean`-invariant segments (for a rooted input)
is relative and free of `".."` and empty segments; the same holds for the
default document substituted on an empty name. -/
theorem cleanName_no_traversal (segs : List (List Char))
    (hgood : ∀ x ∈ segs, GoodSeg true x) :
    isRooted (if (⟨joinSegs segs⟩ : String) = "" then defaultFile else ⟨joinSegs segs⟩) = false ∧
    ∀ seg ∈ splitSegs (if (⟨joinSegs segs⟩ : String) = "" then defaultFile else ⟨joinSegs segs⟩),
      seg ≠ ".." ∧ seg ≠ "" := by
  cases segs with
  | nil =>
    rw [if_pos (show (⟨joinSegs []⟩ : String) = "" from rfl)]
    exact ⟨by decide, by decide⟩
  | cons s rest =>
    obtain ⟨hsne, _, hsslash, _⟩ := hgood s (List.mem_cons_self s rest)
    obtain ⟨tail, htail⟩ := joinSegs_cons s rest
    have hout : joinSegs (s :: rest) ≠ [] := by
      rw [htail]
      cases s with
      | nil => exact absurd rfl hsne
      | cons c' cs' => simp
    have hne : (⟨joinSegs (s :: rest)⟩ : String) ≠ "" := by
      intro h
      rw [String.ext_iff] at h
      exact hout h
    rw [if_neg hne]
    constructor
    · obtain ⟨c', cs', hs⟩ : ∃ c' cs', s = c' :: cs' := by
        cases s with
        | nil => exact absurd rfl hsne
        | cons a b => exact ⟨a, b, rfl⟩
      subst hs
      have hc' : ¬ c' = '/' := fun hh => hsslash (List.mem_cons.mpr (Or.inl hh.symm))
      rw [htail]
      simp [isRooted, hc']
    · intro seg hseg
      have hsplit : splitSegsAux [] (joinSegs (s :: rest)) = s :: rest :=
        splitSegsAux_joinSegs (s :: rest) (by simp)
          (fun x hx => (hgood x hx).2.2.1)
      have hdata : (⟨joinSegs (s :: rest)⟩ : String).data = joinSegs (s :: rest) := rfl
      simp only [splitSegs, hdata, hsplit] at hseg
      rcases List.mem_map.mp hseg with ⟨x, hx, hxeq⟩
      subst hxeq
      have hgx := hgood x hx
      constructor
      · intro h
        rw [show (".." : String) = ⟨['.', '.']⟩ from rfl, String.ext_iff] at h
        exact (hgx.2.2.2 rfl) h
      · intro h
        rw [show ("" : String) = ⟨[]⟩ from rfl, String.ext_iff] at h
        exact hgx.1 h

/-- C9: for every rooted request path — all request paths an HTTP server
hands to these handlers are rooted — the name handed to the asset source,
`path.Clean` of the URL path with the leading `/` stripped (with the empty
name replaced by the default document), is a relative name containing no
`".."` and no empty segment, so resolving it under the configured asset
root or embedded base directory can never reach a file outside that
tree. -/
theorem rooted_request_name_stays_in_root (p : String) (hp : isRooted p = true) :
    isRooted (assetName p) = false ∧
    ∀ seg ∈ splitSegs (assetName p), seg ≠ ".." ∧ seg ≠ "" := by
  obtain ⟨l⟩ := p
  cases l with
  | nil => simp [isRooted] at hp
  | cons c cs =>
    have hc : c = '/' := by simpa [isRooted] using hp
    subst hc
    have hname : assetName ⟨'/' :: cs⟩ =
        (if (⟨joinSegs ((cleanCore true [] (splitSegsAux [] ('/' :: cs))).reverse)⟩ : String) = ""
          then defaultFile
          else ⟨joinSegs ((cleanCore true [] (splitSegsAux [] ('/' :: cs))).reverse)⟩) := rfl
    rw [hname]
    exact cleanName_no_traversal ((cleanCore true [] (splitSegsAux [] ('/' :: cs))).reverse)
      (fun x hx => cleanCore_good true (splitSegsAux [] ('/' :: cs)) [] (by simp)
        (splitSegsAux_no_slash ('/' :: cs) [] (by simp)) x (List.mem_reverse.mp hx))

/-- Witness for C9 at a concrete traversal attempt. -/
theorem rooted_request_name_stays_in_root_witness :
    isRooted "/../../etc/passwd" = true ∧
    (isRooted (assetName "/../../etc/passwd") = false ∧
     ∀ seg ∈ splitSegs (assetName "/../../etc/passwd"), seg ≠ ".." ∧ seg ≠ "") :=
  ⟨by decide, rooted_request_name_stays_in_root "/../../etc/passwd" (by decide)⟩
